import Mathlib

/-!
Shallow embedding of the Audio Timeline and Batch Transcription Controller
of the STT_Agent frontend (pages SilencePage, SilenceAutoPage, SplitPage),
together with proofs of the specification claims about it.

Strings are modelled by Lean `String` / `List Char`; JS floating point
numbers that carry time values are modelled by `ℚ`; JS objects used as
string-keyed maps are modelled by functions `String → Option _`.
-/

namespace STT

/-! ## Time Code Formatter (SilencePage.formatTimeString)

`formatTimeString` of `src/pages/SilencePage.tsx` (lines 20-64):
it keeps digits and the first decimal point, truncates the integer part
to 6 digits and the fractional part to 2 digits, and groups the integer
digits into `HH:MM:SS` / `MM:SS` / bare seconds.
-/

namespace SilencePage

/-- The character class kept by `input.replace(/[^0-9.]/g, "")`:
digits and the decimal point. -/
def isKeep (c : Char) : Bool := c.isDigit || c == '.'

/-- `replace(/\./g, "")`: remove every decimal point. -/
def dropDots (l : List Char) : List Char := l.filter (fun c => !(c == '.'))

/-- `cleaned.slice(0, firstDotIndex + 1) + cleaned.slice(firstDotIndex + 1).replace(/\./g, "")`:
keep the first decimal point, drop every later one.  When there is no dot
the list is returned unchanged (the `firstDotIndex !== -1` guard). -/
def keepFirstDot : List Char → List Char
  | [] => []
  | c :: rest => if c == '.' then c :: dropDots rest else c :: keepFirstDot rest

/-- `cleaned.split('.')` restricted to inputs holding at most one dot
(which `keepFirstDot` guarantees): the part before the dot, and the part
after it when a dot is present (`parts[1]`, possibly empty). -/
def splitDot : List Char → List Char × Option (List Char)
  | [] => ([], none)
  | c :: rest =>
    if c == '.' then ([], some rest)
    else
      let p := splitDot rest
      (c :: p.1, p.2)

/-- The grouping of the integer digits (lines 39-51): at most 2 digits are
bare seconds, 3-4 digits become `MM:SS`, 5-6 digits become `HH:MM:SS`. -/
def groupDigits (l : List Char) : List Char :=
  if l.length ≤ 2 then l
  else if l.length ≤ 4 then
    l.take (l.length - 2) ++ (':' :: l.drop (l.length - 2))
  else
    l.take (l.length - 4)
      ++ (':' :: ((l.drop (l.length - 4)).take 2 ++ (':' :: l.drop (l.length - 2))))

/-- The body of `formatTimeString` on the character list of the input:
clean the input, keep only the first dot, split into integer and
fractional digits (`integers.slice(0, 6)`, `decimals.slice(0, 2)`),
group the integer part, and preserve a trailing typed dot. -/
def formatCore (input : List Char) : List Char :=
  match splitDot (keepFirstDot (input.filter isKeep)) with
  | (integers, some decimals) => groupDigits (integers.take 6) ++ '.' :: decimals.take 2
  | (integers, none) =>
    let formattedInt := groupDigits (integers.take 6)
    if input.getLast? == some '.' && !(formattedInt.contains '.') then
      formattedInt ++ ['.']
    else formattedInt

/-- `formatTimeString` of `SilencePage.tsx`. -/
def formatTimeString (s : String) : String := ⟨formatCore s.data⟩

end SilencePage

end STT

namespace STT.SilencePage

example : formatTimeString "" = "" := by decide

example : formatTimeString "1" = "1" := by decide

example : formatTimeString "130" = "1:30" := by decide

example : formatTimeString "59" = "59" := by decide

example : formatTimeString "12345" = "1:23:45" := by decide

example : formatTimeString "011223" = "01:12:23" := by decide

example : formatTimeString "12.5" = "12.5" := by decide

example : formatTimeString "1234567" = "12:34:56" := by decide

example : formatTimeString "ab1x30" = "1:30" := by decide

example : formatTimeString "1.2.3" = "1.23" := by decide

example : formatTimeString "1:23:45" = "1:23:45" := by decide

/-! Supporting lemmas about the formatter. -/

lemma digit_ne_dot {c : Char} (h : c.isDigit = true) : c ≠ '.' := by
  intro hc
  subst hc
  exact absurd h (by decide)

lemma dot_not_mem_of_digits {l : List Char} (h : ∀ c ∈ l, c.isDigit = true) :
    '.' ∉ l :=
  fun hm => digit_ne_dot (h _ hm) rfl

lemma filter_isKeep_eq_self {l : List Char}
    (h : ∀ c ∈ l, c.isDigit = true ∨ c = '.') : l.filter isKeep = l := by
  rw [List.filter_eq_self]
  intro c hc
  rcases h c hc with h1 | h1
  · simp [isKeep, h1]
  · subst h1; decide

lemma dropDots_eq_self {l : List Char} (h : '.' ∉ l) : dropDots l = l := by
  rw [dropDots, List.filter_eq_self]
  intro c hc
  have : c ≠ '.' := fun he => h (he ▸ hc)
  simpa using this

lemma keepFirstDot_of_not_mem {l : List Char} (h : '.' ∉ l) :
    keepFirstDot l = l := by
  induction l with
  | nil => rfl
  | cons c rest ih =>
    have hc : (c == '.') = false := by
      have : c ≠ '.' := fun he => h (by simp [he])
      simpa using this
    rw [keepFirstDot, hc]
    simp only [Bool.false_eq_true, if_false, List.cons.injEq, true_and]
    exact ih (fun hm => h (List.mem_cons_of_mem _ hm))

lemma keepFirstDot_append {b d : List Char} (hb : '.' ∉ b) :
    keepFirstDot (b ++ '.' :: d) = b ++ '.' :: dropDots d := by
  induction b with
  | nil => simp [keepFirstDot]
  | cons c rest ih =>
    have hc : (c == '.') = false := by
      have : c ≠ '.' := fun he => hb (by simp [he])
      simpa using this
    simp only [List.cons_append]
    rw [keepFirstDot, hc]
    simp only [Bool.false_eq_true, if_false, List.cons.injEq, true_and]
    exact ih (fun hm => hb (List.mem_cons_of_mem _ hm))

lemma splitDot_of_not_mem {l : List Char} (h : '.' ∉ l) :
    splitDot l = (l, none) := by
  induction l with
  | nil => rfl
  | cons c rest ih =>
    have hc : (c == '.') = false := by
      have : c ≠ '.' := fun he => h (by simp [he])
      simpa using this
    rw [splitDot, hc]
    simp [ih (fun hm => h (List.mem_cons_of_mem _ hm))]

lemma splitDot_append {b d : List Char} (hb : '.' ∉ b) :
    splitDot (b ++ '.' :: d) = (b, some d) := by
  induction b with
  | nil => simp [splitDot]
  | cons c rest ih =>
    have hc : (c == '.') = false := by
      have : c ≠ '.' := fun he => hb (by simp [he])
      simpa using this
    rw [List.cons_append, splitDot, hc]
    simp [ih (fun hm => hb (List.mem_cons_of_mem _ hm))]

lemma exists_firstDot {l : List Char} (h : '.' ∈ l) :
    ∃ b d, l = b ++ '.' :: d ∧ '.' ∉ b := by
  induction l with
  | nil => cases h
  | cons c rest ih =>
    by_cases hc : c = '.'
    · exact ⟨[], rest, by simp [hc], by simp⟩
    · have hr : '.' ∈ rest := by
        rcases List.mem_cons.mp h with h1 | h1
        · exact absurd h1.symm hc
        · exact h1
      obtain ⟨b, d, he, hb⟩ := ih hr
      refine ⟨c :: b, d, by simp [he], ?_⟩
      intro hm
      rcases List.mem_cons.mp hm with h1 | h1
      · exact hc h1.symm
      · exact hb h1

lemma dot_not_mem_groupDigits {l : List Char} (h : ∀ c ∈ l, c.isDigit = true) :
    '.' ∉ groupDigits l := by
  have hl : '.' ∉ l := dot_not_mem_of_digits h
  intro hm
  unfold groupDigits at hm
  split at hm
  · exact hl hm
  · split at hm
    · rcases List.mem_append.mp hm with h1 | h1
      · exact hl (List.mem_of_mem_take h1)
      · rcases List.mem_cons.mp h1 with h2 | h2
        · exact absurd h2 (by decide)
        · exact hl (List.mem_of_mem_drop h2)
    · rcases List.mem_append.mp hm with h1 | h1
      · exact hl (List.mem_of_mem_take h1)
      · rcases List.mem_cons.mp h1 with h2 | h2
        · exact absurd h2 (by decide)
        · rcases List.mem_append.mp h2 with h3 | h3
          · exact hl (List.mem_of_mem_drop (List.mem_of_mem_take h3))
          · rcases List.mem_cons.mp h3 with h4 | h4
            · exact absurd h4 (by decide)
            · exact hl (List.mem_of_mem_drop h4)

lemma filter_isKeep_groupDigits {l : List Char} (h : ∀ c ∈ l, c.isDigit = true) :
    (groupDigits l).filter isKeep = l := by
  have hkeep : ∀ (m : List Char), (∀ c ∈ m, c.isDigit = true) →
      m.filter isKeep = m :=
    fun m hm => filter_isKeep_eq_self (fun c hc => Or.inl (hm c hc))
  have hcolon : isKeep ':' = false := by decide
  unfold groupDigits
  by_cases h2 : l.length ≤ 2
  · simp only [h2, if_true]
    exact hkeep l h
  by_cases h4 : l.length ≤ 4
  · simp only [h2, h4, if_true, if_false]
    rw [List.filter_append, List.filter_cons, hcolon]
    simp only [Bool.false_eq_true, if_false]
    rw [hkeep _ (fun c hc => h c (List.mem_of_mem_take hc)),
      hkeep _ (fun c hc => h c (List.mem_of_mem_drop hc)),
      List.take_append_drop]
  · simp only [h2, h4, if_false]
    rw [List.filter_append, List.filter_cons, hcolon]
    simp only [Bool.false_eq_true, if_false]
    rw [List.filter_append, List.filter_cons, hcolon]
    simp only [Bool.false_eq_true, if_false]
    rw [hkeep _ (fun c hc => h c (List.mem_of_mem_take hc)),
      hkeep _ (fun c hc => h c (List.mem_of_mem_drop (List.mem_of_mem_take hc))),
      hkeep _ (fun c hc => h c (List.mem_of_mem_drop hc))]
    have hdd : l.drop (l.length - 2) = (l.drop (l.length - 4)).drop 2 := by
      rw [List.drop_drop]
      congr 1
      omega
    rw [hdd, List.take_append_drop, List.take_append_drop]

lemma take_two_take_two {d : List Char} : (d.take 2).take 2 = d.take 2 := by
  rw [List.take_take]
  norm_num

lemma getLast?_beq_dot_eq_false {l : List Char} (h : '.' ∉ l) :
    (l.getLast? == some '.') = false := by
  cases hl : l.getLast? with
  | none => rfl
  | some c =>
    have hm : c ∈ l := List.mem_of_getLast?_eq_some hl
    have : c ≠ '.' := fun he => h (he ▸ hm)
    simpa using this

lemma formatCore_eq_of_decomp {input b d : List Char}
    (h : keepFirstDot (input.filter isKeep) = b ++ '.' :: d) (hb : '.' ∉ b) :
    formatCore input = groupDigits (b.take 6) ++ '.' :: d.take 2 := by
  unfold formatCore
  rw [h, splitDot_append hb]

lemma formatCore_eq_of_nodot {input m : List Char}
    (h : keepFirstDot (input.filter isKeep) = m) (hm : '.' ∉ m)
    (hlast : (input.getLast? == some '.') = false) :
    formatCore input = groupDigits (m.take 6) := by
  unfold formatCore
  rw [h, splitDot_of_not_mem hm, hlast]
  simp

lemma formatCore_of_digits {l : List Char} (h : ∀ c ∈ l, c.isDigit = true) :
    formatCore l = groupDigits (l.take 6) := by
  have hdot : '.' ∉ l := dot_not_mem_of_digits h
  refine formatCore_eq_of_nodot ?_ hdot (getLast?_beq_dot_eq_false hdot)
  rw [filter_isKeep_eq_self (fun c hc => Or.inl (h c hc)),
    keepFirstDot_of_not_mem hdot]

lemma formatCore_idem {l : List Char}
    (hchars : ∀ c ∈ l, c.isDigit = true ∨ c = '.')
    (hdigits : (l.filter (fun c => c.isDigit)).length ≤ 6)
    (hdots : l.count '.' ≤ 1) :
    formatCore (formatCore l) = formatCore l := by
  by_cases hdot : '.' ∈ l
  · obtain ⟨b, d, rfl, hb⟩ := exists_firstDot hdot
    have hd : '.' ∉ d := by
      have hcb : b.count '.' = 0 := List.count_eq_zero.mpr hb
      rw [List.count_append, hcb, List.count_cons] at hdots
      simp only [beq_self_eq_true, if_true] at hdots
      exact List.count_eq_zero.mp (by omega)
    have hdb : ∀ c ∈ b, c.isDigit = true := fun c hc =>
      ((hchars c (by simp [hc])).resolve_right (fun he => hb (he ▸ hc)))
    have hdd : ∀ c ∈ d, c.isDigit = true := fun c hc =>
      ((hchars c (by simp [hc])).resolve_right (fun he => hd (he ▸ hc)))
    have hlb : b.length ≤ 6 := by
      have h1 : (b ++ '.' :: d).filter (fun c => c.isDigit)
          = b ++ d.filter (fun c => c.isDigit) := by
        rw [List.filter_append, List.filter_eq_self.mpr hdb, List.filter_cons]
        simp
      rw [h1, List.length_append] at hdigits
      omega
    have hd2 : '.' ∉ d.take 2 := fun hm => hd (List.mem_of_mem_take hm)
    have hstep : formatCore (b ++ '.' :: d) = groupDigits b ++ '.' :: d.take 2 := by
      rw [formatCore_eq_of_decomp (b := b) (d := d) ?_ hb,
        List.take_of_length_le hlb]
      rw [filter_isKeep_eq_self hchars, keepFirstDot_append hb,
        dropDots_eq_self hd]
    rw [hstep]
    rw [formatCore_eq_of_decomp (b := b) (d := d.take 2) ?_ hb]
    · rw [List.take_of_length_le hlb, take_two_take_two]
    · rw [List.filter_append, filter_isKeep_groupDigits hdb, List.filter_cons]
      have hk : isKeep '.' = true := by decide
      rw [hk]
      simp only [if_true]
      rw [filter_isKeep_eq_self (fun c hc => Or.inl (hdd c (List.mem_of_mem_take hc))),
        keepFirstDot_append hb, dropDots_eq_self hd2]
  · have hdig : ∀ c ∈ l, c.isDigit = true := fun c hc =>
      (hchars c hc).resolve_right (fun he => hdot (he ▸ hc))
    have hlen : l.length ≤ 6 := by
      rwa [List.filter_eq_self.mpr hdig] at hdigits
    rw [formatCore_of_digits hdig, List.take_of_length_le hlen]
    have hg : '.' ∉ groupDigits l := dot_not_mem_groupDigits hdig
    rw [formatCore_eq_of_nodot (m := l) ?_ hdot (getLast?_beq_dot_eq_false hg)]
    · rw [List.take_of_length_le hlen]
    · rw [filter_isKeep_groupDigits hdig, keepFirstDot_of_not_mem hdot]

end STT.SilencePage

/-- Claim C6: the time code formatter strips non-digits except the first
decimal point, truncates to 6 integer and 2 fractional digits, and groups
the integer digits (at most 2 digits bare, 3-4 digits as MM:SS, 5-6 digits
as HH:MM:SS); consequently format of "" is "", "1" is "1", "130" is "1:30",
"59" is "59", "12345" is "1:23:45", "011223" is "01:12:23", "12.5" is
"12.5", and any seven-digit input is truncated to its first six digits
before grouping. -/
theorem C6_formatter_reference :
    STT.SilencePage.formatTimeString "" = ""
    ∧ STT.SilencePage.formatTimeString "1" = "1"
    ∧ STT.SilencePage.formatTimeString "130" = "1:30"
    ∧ STT.SilencePage.formatTimeString "59" = "59"
    ∧ STT.SilencePage.formatTimeString "12345" = "1:23:45"
    ∧ STT.SilencePage.formatTimeString "011223" = "01:12:23"
    ∧ STT.SilencePage.formatTimeString "12.5" = "12.5"
    ∧ ∀ s : String, s.data.length = 7 → (∀ c ∈ s.data, c.isDigit = true) →
        STT.SilencePage.formatTimeString s
          = STT.SilencePage.formatTimeString ⟨s.data.take 6⟩ := by
  refine ⟨by decide, by decide, by decide, by decide, by decide, by decide,
    by decide, ?_⟩
  intro s _ hdig
  show (⟨STT.SilencePage.formatCore s.data⟩ : String)
    = ⟨STT.SilencePage.formatCore (s.data.take 6)⟩
  have h6 : ∀ c ∈ s.data.take 6, c.isDigit = true :=
    fun c hc => hdig c (List.mem_of_mem_take hc)
  rw [STT.SilencePage.formatCore_of_digits hdig,
    STT.SilencePage.formatCore_of_digits h6, List.take_take]
  norm_num

/-- Witness for C6: the seven-digit clause evaluated at "1234567". -/
theorem C6_formatter_reference_witness :
    STT.SilencePage.formatTimeString "1234567"
      = STT.SilencePage.formatTimeString "123456" := by
  have h := C6_formatter_reference.2.2.2.2.2.2.2 "1234567" (by decide) (by decide)
  exact h.trans (by decide)

/-- Claim C7: for every raw input string made of at most 6 digits and at
most one decimal point, the time code formatter is idempotent. -/
theorem C7_format_idempotent (s : String)
    (hchars : ∀ c ∈ s.data, c.isDigit = true ∨ c = '.')
    (hdigits : (s.data.filter (fun c => c.isDigit)).length ≤ 6)
    (hdots : s.data.count '.' ≤ 1) :
    STT.SilencePage.formatTimeString (STT.SilencePage.formatTimeString s)
      = STT.SilencePage.formatTimeString s := by
  show (⟨STT.SilencePage.formatCore
      (STT.SilencePage.formatCore s.data)⟩ : String)
    = ⟨STT.SilencePage.formatCore s.data⟩
  rw [STT.SilencePage.formatCore_idem hchars hdigits hdots]

/-- Witness for C7: idempotence instantiated at the input "1234.56". -/
theorem C7_format_idempotent_witness :
    STT.SilencePage.formatTimeString (STT.SilencePage.formatTimeString "1234.56")
      = STT.SilencePage.formatTimeString "1234.56" :=
  C7_format_idempotent "1234.56" (by decide) (by decide) (by decide)

namespace STT

/-- Whitespace removed by the JS `trim()` (the ASCII fragment). -/
def isTrimmedSpace (c : Char) : Bool :=
  c == ' ' || c == '\t' || c == '\n' || c == '\r'

/-- The JS `String.prototype.trim`: drop whitespace at both ends. -/
def jsTrim (s : String) : String :=
  ⟨((s.data.dropWhile isTrimmedSpace).reverse.dropWhile isTrimmedSpace).reverse⟩

end STT

namespace STT

/-! ## Segment marking state machine and segment list (SplitPage.tsx)

`handleContextMenu`, `handleCancelMark`, `handleConfirmMark` and the
segment-list operations of `src/pages/SplitPage.tsx` (lines 784-864).
Timeline positions (JS numbers) are modelled by `ℚ`; the marking state is
the triple of the React states `markPoint1`, `markPoint2`,
`segmentNameInput` (`null` becomes `none`).
-/

namespace SplitPage

/-- JS `%` truncates the quotient towards zero. -/
def jsTrunc (q : ℚ) : ℤ := if 0 ≤ q then ⌊q⌋ else ⌈q⌉

/-- The JS remainder `a % b`. -/
def jsMod (a b : ℚ) : ℚ := a - b * jsTrunc (a / b)

/-- `.toString().padStart(2, "0")`. -/
def padStart2 (s : String) : String :=
  if s.length ≥ 2 then s else if s.length = 1 then "0" ++ s else "00"

/-- `formatTime` of `SplitPage.tsx` (lines 764-769): `HH:MM:SS` built with
`Math.floor` and the JS remainder. -/
def formatTime (seconds : ℚ) : String :=
  padStart2 (toString (⌊seconds / 3600⌋ : ℤ)) ++ ":"
    ++ padStart2 (toString (⌊jsMod seconds 3600 / 60⌋ : ℤ)) ++ ":"
    ++ padStart2 (toString (⌊jsMod seconds 60⌋ : ℤ))

/-- A row of the segment table of `SplitPage.tsx`. -/
structure Segment where
  id : ℕ
  name : String
  startTime : String
  endTime : String
deriving DecidableEq

/-- The React state of `SplitPage` that the marking gestures and the
segment list read and write. -/
structure SplitPageState where
  segments : List Segment
  nextId : ℕ
  markPoint1 : Option ℚ
  markPoint2 : Option ℚ
  segmentNameInput : String
deriving DecidableEq

/-- A mark gesture at timeline position `t` (`handleContextMenu`,
lines 793-807): first click sets point 1, second click sets point 2, a
third click discards both and restarts at point 1. -/
def handleContextMenu (t : ℚ) (s : SplitPageState) : SplitPageState :=
  if s.markPoint1 = none then
    { s with markPoint1 := some t, markPoint2 := none, segmentNameInput := "" }
  else if s.markPoint2 = none then
    { s with markPoint2 := some t }
  else
    { s with markPoint1 := some t, markPoint2 := none, segmentNameInput := "" }

/-- `handleCancelMark` (lines 810-814). -/
def handleCancelMark (s : SplitPageState) : SplitPageState :=
  { s with markPoint1 := none, markPoint2 := none, segmentNameInput := "" }

/-- `handleConfirmMark` (lines 816-832): a no-op unless both points are
set; otherwise appends the segment built from the ordered points and the
trimmed label and resets the marking state. -/
def handleConfirmMark (s : SplitPageState) : SplitPageState :=
  match s.markPoint1, s.markPoint2 with
  | some p1, some p2 =>
    handleCancelMark
      { s with
          segments := s.segments
            ++ [⟨s.nextId, jsTrim s.segmentNameInput,
                formatTime (min p1 p2), formatTime (max p1 p2)⟩],
          nextId := s.nextId + 1 }
  | _, _ => s

end SplitPage

end STT

/-- Claim C3: starting from the Idle marking state, three consecutive mark
gestures at times t1, t2, t3 leave the machine in Point1Set with
point1 = t3 and point2 unset: the third gesture discards the first pair. -/
theorem C3_third_gesture_restart (s : STT.SplitPage.SplitPageState)
    (h1 : s.markPoint1 = none) (_h2 : s.markPoint2 = none) (t1 t2 t3 : ℚ) :
    (STT.SplitPage.handleContextMenu t3 (STT.SplitPage.handleContextMenu t2
        (STT.SplitPage.handleContextMenu t1 s))).markPoint1 = some t3
    ∧ (STT.SplitPage.handleContextMenu t3 (STT.SplitPage.handleContextMenu t2
        (STT.SplitPage.handleContextMenu t1 s))).markPoint2 = none := by
  simp [STT.SplitPage.handleContextMenu, h1]

/-- Witness for C3: the three-gesture run from the initial page state at
times 1, 2, 3. -/
theorem C3_third_gesture_restart_witness :
    (STT.SplitPage.handleContextMenu 3 (STT.SplitPage.handleContextMenu 2
        (STT.SplitPage.handleContextMenu 1
          ⟨[⟨1, "", "", ""⟩], 2, none, none, ""⟩))).markPoint1 = some 3
    ∧ (STT.SplitPage.handleContextMenu 3 (STT.SplitPage.handleContextMenu 2
        (STT.SplitPage.handleContextMenu 1
          ⟨[⟨1, "", "", ""⟩], 2, none, none, ""⟩))).markPoint2 = none :=
  C3_third_gesture_restart ⟨[⟨1, "", "", ""⟩], 2, none, none, ""⟩ rfl rfl 1 2 3

/-- Claim C4: confirm is a no-op unless both mark points are set; when both
are set it appends exactly one segment with the formatted `min` as start,
the formatted `max` as end, the trimmed label, and the current next id, and
returns the machine to Idle; gesture order does not matter. -/
theorem C4_confirm_postcondition (s : STT.SplitPage.SplitPageState) :
    ((s.markPoint1 = none ∨ s.markPoint2 = none) →
      STT.SplitPage.handleConfirmMark s = s)
    ∧ (∀ p1 p2 : ℚ, s.markPoint1 = some p1 → s.markPoint2 = some p2 →
        (STT.SplitPage.handleConfirmMark s).segments
            = s.segments ++ [⟨s.nextId, STT.jsTrim s.segmentNameInput,
                STT.SplitPage.formatTime (min p1 p2),
                STT.SplitPage.formatTime (max p1 p2)⟩]
          ∧ (STT.SplitPage.handleConfirmMark s).nextId = s.nextId + 1
          ∧ (STT.SplitPage.handleConfirmMark s).markPoint1 = none
          ∧ (STT.SplitPage.handleConfirmMark s).markPoint2 = none)
    ∧ (∀ p1 p2 : ℚ, s.markPoint1 = none →
        STT.SplitPage.handleConfirmMark (STT.SplitPage.handleContextMenu p2
            (STT.SplitPage.handleContextMenu p1 s))
          = STT.SplitPage.handleConfirmMark (STT.SplitPage.handleContextMenu p1
            (STT.SplitPage.handleContextMenu p2 s))) := by
  obtain ⟨segs, nid, mp1, mp2, nameInput⟩ := s
  refine ⟨?_, ?_, ?_⟩
  · rintro (h | h)
    · simp only at h
      subst h
      cases mp2 <;> simp [STT.SplitPage.handleConfirmMark]
    · simp only at h
      subst h
      cases mp1 <;> simp [STT.SplitPage.handleConfirmMark]
  · intro p1 p2 h1 h2
    simp only at h1 h2
    subst h1; subst h2
    simp [STT.SplitPage.handleConfirmMark, STT.SplitPage.handleCancelMark]
  · intro p1 p2 h1
    simp only at h1
    subst h1
    simp [STT.SplitPage.handleContextMenu, STT.SplitPage.handleConfirmMark,
      STT.SplitPage.handleCancelMark, min_comm, max_comm]

/-- Witness for C4: the confirm after gestures at 7 then 3 from the
initial page state appends the segment from 3 to 7. -/
theorem C4_confirm_postcondition_witness :
    (STT.SplitPage.handleConfirmMark (STT.SplitPage.handleContextMenu 3
        (STT.SplitPage.handleContextMenu 7
          ⟨[⟨1, "", "", ""⟩], 2, none, none, ""⟩))).segments
      = [⟨1, "", "", ""⟩]
        ++ [⟨2, STT.jsTrim "", STT.SplitPage.formatTime (min (7 : ℚ) 3),
            STT.SplitPage.formatTime (max (7 : ℚ) 3)⟩] :=
  ((C4_confirm_postcondition (STT.SplitPage.handleContextMenu 3
      (STT.SplitPage.handleContextMenu 7
        ⟨[⟨1, "", "", ""⟩], 2, none, none, ""⟩))).2.1 7 3 rfl rfl).1

namespace STT.SilencePage

/-! ## Segment List Manager (SilencePage.tsx lines 84-87 and 249-258)

The segment table state of `SilencePage`: the initial list holds one blank
segment with id 1 and the id counter starts at 2; `addSegment` appends a
blank segment with the next id; `deleteSegment` removes by id only while
more than one segment remains.
-/

/-- A row of the segment table of `SilencePage.tsx`. -/
structure Segment where
  id : ℕ
  note : String
  startTime : String
  endTime : String
deriving DecidableEq

/-- The `segments` and `nextId` React states. -/
structure SegmentsState where
  segments : List Segment
  nextId : ℕ
deriving DecidableEq

/-- `useState` initial values (lines 84-87). -/
def initialSegmentsState : SegmentsState := ⟨[⟨1, "", "", ""⟩], 2⟩

/-- `addSegment` (lines 249-252). -/
def addSegment (s : SegmentsState) : SegmentsState :=
  ⟨s.segments ++ [⟨s.nextId, "", "", ""⟩], s.nextId + 1⟩

/-- `deleteSegment` (lines 254-258): filters the id out only when more
than one segment remains; otherwise the state is unchanged. -/
def deleteSegment (i : ℕ) (s : SegmentsState) : SegmentsState :=
  if 1 < s.segments.length then
    { s with segments := s.segments.filter (fun g => g.id != i) }
  else s

/-- One user operation on the segment table. -/
inductive SegOp
  | add
  | del (i : ℕ)

/-- Apply one operation. -/
def applySegOp (s : SegmentsState) : SegOp → SegmentsState
  | .add => addSegment s
  | .del i => deleteSegment i s

/-- Apply a sequence of operations, oldest first. -/
def applySegOps (s : SegmentsState) (ops : List SegOp) : SegmentsState :=
  ops.foldl applySegOp s

/-- The state invariant maintained by the page: at least one segment, ids
below the counter, and pairwise distinct ids. -/
def SegInv (s : SegmentsState) : Prop :=
  1 ≤ s.segments.length
    ∧ (∀ g ∈ s.segments, g.id < s.nextId)
    ∧ s.segments.Pairwise (fun a b => a.id ≠ b.id)

lemma segInv_initial : SegInv initialSegmentsState := by
  refine ⟨by decide, ?_, ?_⟩
  · intro g hg
    simp only [initialSegmentsState, List.mem_singleton] at hg
    subst hg
    decide
  · simp [initialSegmentsState]

lemma segInv_add {s : SegmentsState} (h : SegInv s) : SegInv (addSegment s) := by
  obtain ⟨hlen, hbound, hpair⟩ := h
  refine ⟨?_, ?_, ?_⟩
  · simp only [addSegment, List.length_append, List.length_singleton]
    omega
  · intro g hg
    simp only [addSegment, List.mem_append, List.mem_singleton] at hg
    rcases hg with hg | hg
    · exact Nat.lt_succ_of_lt (hbound g hg)
    · subst hg
      exact Nat.lt_succ_self _
  · simp only [addSegment]
    rw [List.pairwise_append]
    refine ⟨hpair, List.pairwise_singleton _ _, ?_⟩
    intro a ha b hb
    simp only [List.mem_singleton] at hb
    subst hb
    exact Nat.ne_of_lt (hbound a ha)

lemma segInv_delete {s : SegmentsState} (i : ℕ) (h : SegInv s) :
    SegInv (deleteSegment i s) := by
  obtain ⟨hlen, hbound, hpair⟩ := h
  unfold deleteSegment
  by_cases hgt : 1 < s.segments.length
  · simp only [hgt, if_true]
    refine ⟨?_, ?_, ?_⟩
    · obtain ⟨a, b, rest, hab⟩ : ∃ a b rest, s.segments = a :: b :: rest := by
        match hm : s.segments with
        | [] => rw [hm] at hgt; simp at hgt
        | [a] => rw [hm] at hgt; simp at hgt
        | a :: b :: rest => exact ⟨a, b, rest, rfl⟩
      have hne : a.id ≠ b.id := by
        rw [hab] at hpair
        exact (List.pairwise_cons.mp hpair).1 b (List.mem_cons_self _ _)
      have : ∃ g, g ∈ s.segments.filter (fun g => g.id != i) := by
        by_cases ha : a.id = i
        · refine ⟨b, List.mem_filter.mpr ⟨by rw [hab]; simp, ?_⟩⟩
          simp only [bne_iff_ne, ne_eq]
          omega
        · refine ⟨a, List.mem_filter.mpr ⟨by rw [hab]; simp, ?_⟩⟩
          simp only [bne_iff_ne, ne_eq]
          exact ha
      obtain ⟨g, hg⟩ := this
      exact List.length_pos.mpr (List.ne_nil_of_mem hg)
    · intro g hg
      exact hbound g (List.mem_of_mem_filter hg)
    · exact List.Pairwise.filter _ hpair
  · simp only [hgt, if_false]
    exact ⟨hlen, hbound, hpair⟩

lemma segInv_applySegOps {s : SegmentsState} (h : SegInv s) (ops : List SegOp) :
    SegInv (applySegOps s ops) := by
  induction ops generalizing s with
  | nil => exact h
  | cons op rest ih =>
    cases op with
    | add => exact ih (segInv_add h)
    | del i => exact ih (segInv_delete i h)

end STT.SilencePage

/-- Claim C5: starting from the initial one-segment list, the list length
stays at least 1 after every finite sequence of add and delete operations;
deleting the sole remaining segment is a no-op, and deleting with more
than one segment present filters that id out of the list. -/
theorem C5_minimum_one_invariant :
    (∀ ops : List STT.SilencePage.SegOp,
      1 ≤ (STT.SilencePage.applySegOps
        STT.SilencePage.initialSegmentsState ops).segments.length)
    ∧ (∀ s : STT.SilencePage.SegmentsState, ∀ i : ℕ,
        s.segments.length = 1 → STT.SilencePage.deleteSegment i s = s)
    ∧ (∀ s : STT.SilencePage.SegmentsState, ∀ i : ℕ,
        1 < s.segments.length →
        (STT.SilencePage.deleteSegment i s).segments
          = s.segments.filter (fun g => g.id != i)) := by
  refine ⟨?_, ?_, ?_⟩
  · intro ops
    exact (STT.SilencePage.segInv_applySegOps
      STT.SilencePage.segInv_initial ops).1
  · intro s i hlen
    unfold STT.SilencePage.deleteSegment
    rw [hlen]
    simp
  · intro s i hgt
    unfold STT.SilencePage.deleteSegment
    rw [if_pos hgt]

/-- Witness for C5: deleting id 1 from the sole-segment initial state is a
no-op, and the add/delete sequence keeps the length at 1 or more. -/
theorem C5_minimum_one_invariant_witness :
    STT.SilencePage.deleteSegment 1 STT.SilencePage.initialSegmentsState
        = STT.SilencePage.initialSegmentsState
    ∧ 1 ≤ (STT.SilencePage.applySegOps STT.SilencePage.initialSegmentsState
        [.add, .del 1, .del 2]).segments.length :=
  ⟨C5_minimum_one_invariant.2.1 STT.SilencePage.initialSegmentsState 1 rfl,
    C5_minimum_one_invariant.1 [.add, .del 1, .del 2]⟩

namespace STT

/-- `replace(/\\/g, "/")`: substitute every backslash with a slash. -/
def toSlashes (s : String) : String :=
  ⟨s.data.map (fun c => if c = '\\' then '/' else c)⟩

end STT

namespace STT.SilencePage

/-! ## Redaction Command Builder (SilencePage.runSilence, lines 271-327)

`runSilence` filters the segment table to the rows with both times
present; with at least one valid row and a selected file in a selected
folder it issues one `apply_silence_command` request whose payload maps
each valid row to `{note: trimmed-or-null, startTime, endTime}`; with no
selected file it throws the no-audio error, and with a file but no valid
row it throws the set-segments error.  The eager report-folder side
effect (lines 276-290) touches only localStorage and cannot change the
outcome, so it is not part of the embedded state.
-/

/-- The outcome taxonomy of a `runSilence` call: `NoTrackLoaded` is the
`errorLoadAudio` throw, `NoValidSegments` the `errorSetSegment` throw. -/
inductive RunSilenceError
  | NoTrackLoaded
  | NoValidSegments
deriving DecidableEq

/-- One entry of the `segments` payload of `apply_silence_command`. -/
structure SilenceCmdSegment where
  note : Option String
  startTime : String
  endTime : String
deriving DecidableEq

/-- The observable outcome of `runSilence`: a single backend request, a
thrown error, or the silent fall-through that issues nothing (reachable
only with a valid row, a selected file and an empty folder path). -/
inductive RunSilenceResult
  | issued (audioPath : String) (segments : List SilenceCmdSegment)
  | failed (e : RunSilenceError)
  | noop
deriving DecidableEq

/-- `segments.filter(s => s.startTime && s.endTime)`: JS string truthiness
keeps exactly the rows whose two times are non-empty. -/
def validSegments (segs : List Segment) : List Segment :=
  segs.filter (fun g => g.startTime != "" && g.endTime != "")

/-- `{ note: s.note.trim() || null, startTime: s.startTime, endTime: s.endTime }`. -/
def mkCmdSegment (g : Segment) : SilenceCmdSegment :=
  ⟨if jsTrim g.note = "" then none else some (jsTrim g.note), g.startTime, g.endTime⟩

/-- The decision logic of `runSilence` (lines 292-321). -/
def runSilence (folderPath selectedFile : String) (segments : List Segment) :
    RunSilenceResult :=
  let valid := validSegments segments
  if 0 < valid.length ∧ selectedFile ≠ "" ∧ folderPath ≠ "" then
    .issued (toSlashes (folderPath ++ "/" ++ selectedFile))
      (valid.map mkCmdSegment)
  else if selectedFile = "" then .failed .NoTrackLoaded
  else if valid.length = 0 then .failed .NoValidSegments
  else .noop

end STT.SilencePage

/-- Claim C2: with no track loaded the submit fails with NoTrackLoaded;
with a track but zero valid segments it fails with NoValidSegments;
otherwise it issues exactly one redaction request whose payload maps the
valid segments, in order, to trimmed-note-or-null triples — in particular
the single valid segment with note "a" and times 00:00:01.00, 00:00:02.00
yields exactly one entry with those fields.  The hypothesis is the page
invariant that a file is only ever selected inside a selected folder. -/
theorem C2_redaction_contract (folderPath selectedFile : String)
    (segments : List STT.SilencePage.Segment)
    (hinv : selectedFile ≠ "" → folderPath ≠ "") :
    (selectedFile = "" →
      STT.SilencePage.runSilence folderPath selectedFile segments
        = .failed .NoTrackLoaded)
    ∧ (selectedFile ≠ "" → STT.SilencePage.validSegments segments = [] →
        STT.SilencePage.runSilence folderPath selectedFile segments
          = .failed .NoValidSegments)
    ∧ (selectedFile ≠ "" → STT.SilencePage.validSegments segments ≠ [] →
        STT.SilencePage.runSilence folderPath selectedFile segments
          = .issued (STT.toSlashes (folderPath ++ "/" ++ selectedFile))
              ((STT.SilencePage.validSegments segments).map
                STT.SilencePage.mkCmdSegment))
    ∧ STT.SilencePage.runSilence "d" "f.mp3"
        [⟨1, "a", "00:00:01.00", "00:00:02.00"⟩]
        = .issued "d/f.mp3" [⟨some "a", "00:00:01.00", "00:00:02.00"⟩] := by
  refine ⟨?_, ?_, ?_, by decide⟩
  · intro h
    unfold STT.SilencePage.runSilence
    rw [if_neg, if_pos h]
    simp [h]
  · intro h hval
    unfold STT.SilencePage.runSilence
    rw [if_neg, if_neg h, if_pos]
    · simp [hval]
    · simp [hval]
  · intro h hval
    have hlen : 0 < (STT.SilencePage.validSegments segments).length :=
      List.length_pos.mpr hval
    unfold STT.SilencePage.runSilence
    rw [if_pos ⟨hlen, h, hinv h⟩]

/-- Witness for C2: the no-track and the single-valid-segment cases at
concrete inputs. -/
theorem C2_redaction_contract_witness :
    STT.SilencePage.runSilence "d" "" [⟨1, "a", "00:00:01.00", "00:00:02.00"⟩]
        = .failed .NoTrackLoaded
    ∧ STT.SilencePage.runSilence "d" "f.mp3"
        [⟨1, "a", "00:00:01.00", "00:00:02.00"⟩]
        = .issued "d/f.mp3" [⟨some "a", "00:00:01.00", "00:00:02.00"⟩] :=
  ⟨(C2_redaction_contract "d" "" [⟨1, "a", "00:00:01.00", "00:00:02.00"⟩]
      (fun h => absurd rfl h)).1 rfl,
    (C2_redaction_contract "d" "f.mp3" [⟨1, "a", "00:00:01.00", "00:00:02.00"⟩]
      (fun _ => by decide)).2.2.2⟩

namespace STT.SilenceAutoPage

/-! ## Batch Transcription Pipeline (SilenceAutoPage.startBatchTranscription)

Lines 285-342: the run refuses to start when the server is not connected
or nothing is selected; otherwise it sets every selected file to pending
and then loops strictly sequentially: mark processing, call the remote
service, on success write the transcript JSON and mark done, on failure
mark error and continue.  The remote call outcome per file is the oracle
`ok`; the progress object is a map from filename to status.
-/

/-- The batch status of one file (`'pending' | 'processing' | 'done' | 'error'`). -/
inductive BatchStatus
  | pending
  | processing
  | done
  | error
deriving DecidableEq

/-- `setBatchProgress(prev => ({ ...prev, [f]: st }))`. -/
def updateProgress (p : String → Option BatchStatus) (f : String)
    (st : BatchStatus) : String → Option BatchStatus :=
  fun x => if x = f then some st else p x

/-- The observable per-file events of the loop, in the order the loop
produces them: the remote call starts, then it either succeeds (transcript
saved, status done) or fails (status error). -/
inductive BatchEvent
  | started (f : String)
  | succeeded (f : String)
  | failed (f : String)
deriving DecidableEq

/-- The `for (const filename of filesToProcess)` loop (lines 300-335):
returns the final progress map and the ordered event trace. -/
def processFiles (ok : String → Bool) :
    List String → (String → Option BatchStatus) →
      (String → Option BatchStatus) × List BatchEvent
  | [], p => (p, [])
  | f :: rest, p =>
    let p1 := updateProgress p f .processing
    let p2 := if ok f then updateProgress p1 f .done
      else updateProgress p1 f .error
    let r := processFiles ok rest p2
    (r.1,
      (if ok f then [.started f, .succeeded f] else [.started f, .failed f])
        ++ r.2)

/-- `startBatchTranscription` (lines 285-342): the connection and
non-empty-selection guards, the bulk pending initialisation, then the
sequential loop. -/
def startBatchTranscription (isConnected : Bool) (ok : String → Bool)
    (filesToProcess : List String)
    (batchProgress : String → Option BatchStatus) :
    (String → Option BatchStatus) × List BatchEvent :=
  if !isConnected then (batchProgress, [])
  else if filesToProcess.length = 0 then (batchProgress, [])
  else
    processFiles ok filesToProcess
      (fun f => if f ∈ filesToProcess then some .pending else batchProgress f)

lemma processFiles_not_mem {ok : String → Bool} {f : String} :
    ∀ (files : List String) (p : String → Option BatchStatus), f ∉ files →
      (processFiles ok files p).1 f = p f := by
  intro files
  induction files with
  | nil => intro p _; rfl
  | cons g rest ih =>
    intro p hf
    have hfg : f ≠ g := fun he => hf (he ▸ List.mem_cons_self _ _)
    have hfr : f ∉ rest := fun hm => hf (List.mem_cons_of_mem _ hm)
    show (processFiles ok rest _).1 f = p f
    rw [ih _ hfr]
    by_cases hok : ok g = true <;>
      simp [hok, updateProgress, hfg]

lemma processFiles_mem {ok : String → Bool} {f : String} :
    ∀ (files : List String) (p : String → Option BatchStatus), f ∈ files →
      (processFiles ok files p).1 f
        = some (if ok f then .done else .error) := by
  intro files
  induction files with
  | nil => intro p hf; cases hf
  | cons g rest ih =>
    intro p hf
    by_cases hfr : f ∈ rest
    · exact ih _ hfr
    · have hfg : f = g := by
        rcases List.mem_cons.mp hf with h | h
        · exact h
        · exact absurd h hfr
      subst hfg
      show (processFiles ok rest _).1 f = _
      rw [processFiles_not_mem rest _ hfr]
      by_cases hok : ok f = true <;>
        simp [hok, updateProgress]

lemma processFiles_trace {ok : String → Bool} :
    ∀ (files : List String) (p : String → Option BatchStatus),
      (processFiles ok files p).2
        = files.flatMap (fun f =>
            if ok f then [.started f, .succeeded f]
            else [.started f, .failed f]) := by
  intro files
  induction files with
  | nil => intro p; rfl
  | cons g rest ih =>
    intro p
    show _ ++ (processFiles ok rest _).2 = _
    rw [ih, List.flatMap_cons]

end STT.SilenceAutoPage

/-- Claim C1: a connected batch run processes the selected files strictly
sequentially (each file's remote call finishes before the next one starts,
in list order), the final status of every selected file reflects its own
call outcome (done on success, error on failure, a failure never aborting
the rest), and for files A, B, C where only B's call throws the final
statuses are A done, B error, C done. -/
theorem C1_batch_failure_isolation :
    (∀ (ok : String → Bool) (files : List String)
      (p : String → Option STT.SilenceAutoPage.BatchStatus) (f : String),
      f ∈ files →
      (STT.SilenceAutoPage.startBatchTranscription true ok files p).1 f
        = some (if ok f then .done else .error))
    ∧ (∀ (ok : String → Bool) (files : List String)
        (p : String → Option STT.SilenceAutoPage.BatchStatus),
        (STT.SilenceAutoPage.startBatchTranscription true ok files p).2
          = files.flatMap (fun f =>
              if ok f then [.started f, .succeeded f]
              else [.started f, .failed f]))
    ∧ ((STT.SilenceAutoPage.startBatchTranscription true (fun f => f != "B")
          ["A", "B", "C"] (fun _ => none)).1 "A" = some .done
        ∧ (STT.SilenceAutoPage.startBatchTranscription true (fun f => f != "B")
            ["A", "B", "C"] (fun _ => none)).1 "B" = some .error
        ∧ (STT.SilenceAutoPage.startBatchTranscription true (fun f => f != "B")
            ["A", "B", "C"] (fun _ => none)).1 "C" = some .done) := by
  have hrun : ∀ (ok : String → Bool) (files : List String)
      (p : String → Option STT.SilenceAutoPage.BatchStatus),
      files ≠ [] →
      STT.SilenceAutoPage.startBatchTranscription true ok files p
        = STT.SilenceAutoPage.processFiles ok files
            (fun f => if f ∈ files then some .pending else p f) := by
    intro ok files p hne
    unfold STT.SilenceAutoPage.startBatchTranscription
    rw [if_neg (by simp), if_neg (by simpa using hne)]
  refine ⟨?_, ?_, ?_⟩
  · intro ok files p f hf
    rw [hrun ok files p (List.ne_nil_of_mem hf)]
    exact STT.SilenceAutoPage.processFiles_mem files _ hf
  · intro ok files p
    cases files with
    | nil => rfl
    | cons g rest =>
      rw [hrun ok (g :: rest) p (by simp)]
      exact STT.SilenceAutoPage.processFiles_trace (g :: rest) _
  · refine ⟨?_, ?_, ?_⟩ <;> decide

/-- Witness for C1: the per-file status clause applied to the failing file
B of the concrete A, B, C batch. -/
theorem C1_batch_failure_isolation_witness :
    (STT.SilenceAutoPage.startBatchTranscription true (fun f => f != "B")
        ["A", "B", "C"] (fun _ => none)).1 "B"
      = some (if (fun f => f != "B") "B" then .done else .error) :=
  C1_batch_failure_isolation.1 (fun f => f != "B") ["A", "B", "C"]
    (fun _ => none) "B" (by decide)

namespace STT.SilenceAutoPage

/-! ## Transcript cache key derivation (SilenceAutoPage.getJsonPath)

Lines 63-85: with a current project whose path is a prefix of the audio
file's full path, the cache key is
`<project>/.silence_reg/<filename>.json` with backslashes normalised to
slashes; otherwise (no project, a backend error, or a path outside the
project) the key is the full path with `.json` appended.
-/

/-- The JS `fullPath.startsWith(currentProject)`. -/
def strStartsWith (s p : String) : Bool := s.data.take p.data.length == p.data

/-- `fullPath.split(/[\\/]/).pop()`: the characters after the last path
separator (slash or backslash). -/
def lastComponent (s : String) : String :=
  ⟨s.data.foldl (fun acc c => if c = '/' ∨ c = '\\' then [] else acc ++ [c]) []⟩

/-- `getJsonPath` (lines 63-85).  `currentProject` is the result of
`get_current_project_cmd`; `none` stands for a null project and for the
caught backend error, both of which fall through to the `.json` suffix
fallback.  The guard is the JS `currentProject && fullPath.startsWith(currentProject)`:
an empty project string is falsy and also falls through. -/
def getJsonPath (currentProject : Option String) (fullPath : String) : String :=
  match currentProject with
  | some root =>
    if root ≠ "" ∧ strStartsWith fullPath root = true then
      toSlashes (root ++ "/.silence_reg/" ++ lastComponent fullPath ++ ".json")
    else fullPath ++ ".json"
  | none => fullPath ++ ".json"

/-- The JSON values produced by `JSON.stringify` on the transcript
records: the written content is modelled at this syntax-tree level (the
decimal rendering of JS numbers is floating point and is not modelled). -/
inductive Json
  | str (s : String)
  | num (q : ℚ)
  | arr (l : List Json)
  | obj (fields : List (String × Json))

/-- The `Segment` interface of `SilenceAutoPage.tsx` (lines 6-13): one
transcript segment of a `TranscribeResponse`. -/
structure Segment where
  start : ℚ
  «end» : ℚ
  text : String
  name : String
  start_idx : Option ℚ
  end_idx : Option ℚ

/-- The `TranscribeResponse` interface (lines 21-26): the TranscriptRecord
returned by `transcribe_audio` and persisted by the batch. -/
structure TranscribeResponse where
  filename : String
  duration : ℚ
  segments : List Segment
  full_text : String

/-- `JSON.stringify` on one segment: the fields in declaration order,
optional fields omitted when `undefined`. -/
def encodeSegment (s : Segment) : Json :=
  .obj ([("start", .num s.start), ("end", .num s.«end»),
      ("text", .str s.text), ("name", .str s.name)]
    ++ (match s.start_idx with
        | some v => [("start_idx", Json.num v)]
        | none => [])
    ++ (match s.end_idx with
        | some v => [("end_idx", Json.num v)]
        | none => []))

/-- `JSON.stringify(res, null, 2)` on a `TranscribeResponse`, up to the
textual rendering. -/
def encodeResponse (r : TranscribeResponse) : Json :=
  .obj [("filename", .str r.filename), ("duration", .num r.duration),
    ("segments", .arr (r.segments.map encodeSegment)),
    ("full_text", .str r.full_text)]

/-- The write effects of the batch loop (lines 300-335): for each file,
`fullPath` is the folder-joined, slash-normalised path; on a successful
remote call (`res` returns the record) the loop saves the serialized
record at the derived cache path; on a failed call nothing is written.
`proj` is the current project used by `getJsonPath`. -/
def processFilesWrites (proj : Option String) (folder : String)
    (res : String → Option TranscribeResponse) :
    List String → List (String × Json)
  | [] => []
  | f :: rest =>
    (match res (toSlashes (folder ++ "/" ++ f)) with
      | some r =>
        [(getJsonPath proj (toSlashes (folder ++ "/" ++ f)), encodeResponse r)]
      | none => [])
    ++ processFilesWrites proj folder res rest

lemma mem_processFilesWrites {proj : Option String} {folder : String}
    {res : String → Option TranscribeResponse} :
    ∀ (files : List String) (p : String) (c : Json),
      ((p, c) ∈ processFilesWrites proj folder res files ↔
        ∃ f ∈ files, ∃ r, res (toSlashes (folder ++ "/" ++ f)) = some r
          ∧ p = getJsonPath proj (toSlashes (folder ++ "/" ++ f))
          ∧ c = encodeResponse r) := by
  intro files
  induction files with
  | nil =>
    intro p c
    simp [processFilesWrites]
  | cons g rest ih =>
    intro p c
    simp only [processFilesWrites]
    cases hres : res (toSlashes (folder ++ "/" ++ g)) with
    | none =>
      rw [List.nil_append, ih p c]
      constructor
      · rintro ⟨f, hf, r, hr, hp, hc⟩
        exact ⟨f, List.mem_cons_of_mem _ hf, r, hr, hp, hc⟩
      · rintro ⟨f, hf, r, hr, hp, hc⟩
        rcases List.mem_cons.mp hf with hfg | hfr
        · subst hfg
          rw [hres] at hr
          cases hr
        · exact ⟨f, hfr, r, hr, hp, hc⟩
    | some r0 =>
      rw [List.singleton_append]
      constructor
      · intro hm
        rcases List.mem_cons.mp hm with heq | hmem
        · have hp : p = getJsonPath proj (toSlashes (folder ++ "/" ++ g)) :=
            congrArg Prod.fst heq
          have hc : c = encodeResponse r0 := congrArg Prod.snd heq
          exact ⟨g, List.mem_cons_self _ _, r0, hres, hp, hc⟩
        · obtain ⟨f, hf, r, hr, hp, hc⟩ := (ih p c).mp hmem
          exact ⟨f, List.mem_cons_of_mem _ hf, r, hr, hp, hc⟩
      · rintro ⟨f, hf, r, hr, hp, hc⟩
        rcases List.mem_cons.mp hf with hfg | hfr
        · subst hfg
          rw [hres] at hr
          cases hr
          subst hp
          subst hc
          exact List.mem_cons_self _ _
        · exact List.mem_cons_of_mem _
            ((ih p c).mpr ⟨f, hfr, r, hr, hp, hc⟩)

lemma foldl_lastComponent_no_sep (acc : List Char) :
    ∀ l : List Char, (∀ c ∈ l, ¬(c = '/' ∨ c = '\\')) →
      l.foldl (fun a c => if c = '/' ∨ c = '\\' then [] else a ++ [c]) acc
        = acc ++ l := by
  intro l
  induction l generalizing acc with
  | nil => intro _; simp
  | cons c rest ih =>
    intro h
    have hc : ¬(c = '/' ∨ c = '\\') := h c (List.mem_cons_self _ _)
    show List.foldl _ (if c = '/' ∨ c = '\\' then [] else acc ++ [c]) rest = _
    rw [if_neg hc, ih (acc ++ [c]) (fun x hx => h x (List.mem_cons_of_mem _ hx))]
    simp

lemma lastComponent_append_sep (dir name : String)
    (h : ∀ c ∈ name.data, ¬(c = '/' ∨ c = '\\')) :
    lastComponent (dir ++ "/" ++ name) = name := by
  unfold lastComponent
  have hdata : (dir ++ "/" ++ name).data = (dir.data ++ ['/']) ++ name.data := by
    simp [String.data_append]
  rw [hdata, List.foldl_append]
  have hsep : (dir.data ++ ['/']).foldl
      (fun a c => if c = '/' ∨ c = '\\' then [] else a ++ [c]) [] = [] := by
    rw [List.foldl_append]
    simp
  rw [hsep, foldl_lastComponent_no_sep [] name.data h]
  simp

lemma strStartsWith_append (root rest : String) :
    strStartsWith (root ++ rest) root = true := by
  unfold strStartsWith
  rw [String.data_append, List.take_left]
  exact beq_self_eq_true _

end STT.SilenceAutoPage

/-- Counterexample for C8: inside the project root the derived cache path
uses the hidden directory `.silence_reg`, not the `.transcript-cache`
directory named by the claim. -/
theorem C8_cache_key_counterexample :
    ¬ (STT.SilenceAutoPage.getJsonPath (some "/p") "/p/02_split/a.mp3"
        = "/p/.transcript-cache/a.mp3.json") := by
  decide

/-- Claim C8 (amended): the hidden cache directory is `.silence_reg`.  For
a file `<root><sub>/<name>` under a non-empty project root the derived
cache path is `<root>/.silence_reg/<name>.json` (backslashes normalised to
slashes); with no project, an empty (falsy) project string, or a path that
does not start with the project root, the cache path is the full path with
`.json` appended; and every write of the batch loop stores, at the path
derived for that file, the JSON serialization of the TranscriptRecord
returned by that file's remote call — nothing else is ever written. -/
theorem C8_cache_key_amended :
    (∀ root sub name : String, root ≠ "" →
      (∀ c ∈ name.data, ¬(c = '/' ∨ c = '\\')) →
      STT.SilenceAutoPage.getJsonPath (some root) (root ++ sub ++ ("/" ++ name))
        = STT.toSlashes (root ++ "/.silence_reg/" ++ name ++ ".json"))
    ∧ (∀ root fullPath : String,
        STT.SilenceAutoPage.strStartsWith fullPath root = false →
        STT.SilenceAutoPage.getJsonPath (some root) fullPath
          = fullPath ++ ".json")
    ∧ (∀ fullPath : String,
        STT.SilenceAutoPage.getJsonPath (some "") fullPath = fullPath ++ ".json")
    ∧ (∀ fullPath : String,
        STT.SilenceAutoPage.getJsonPath none fullPath = fullPath ++ ".json")
    ∧ STT.SilenceAutoPage.getJsonPath (some "/p") "/p/02_split/a.mp3"
        = "/p/.silence_reg/a.mp3.json"
    ∧ (∀ (proj : Option String) (folder : String)
        (res : String → Option STT.SilenceAutoPage.TranscribeResponse)
        (files : List String) (p : String) (c : STT.SilenceAutoPage.Json),
        (p, c) ∈ STT.SilenceAutoPage.processFilesWrites proj folder res files ↔
          ∃ f ∈ files, ∃ r,
            res (STT.toSlashes (folder ++ "/" ++ f)) = some r
              ∧ p = STT.SilenceAutoPage.getJsonPath proj
                  (STT.toSlashes (folder ++ "/" ++ f))
              ∧ c = STT.SilenceAutoPage.encodeResponse r) := by
  refine ⟨?_, ?_, ?_, ?_, by decide, ?_⟩
  · intro root sub name hroot hname
    have hpre : STT.SilenceAutoPage.strStartsWith
        (root ++ sub ++ ("/" ++ name)) root = true := by
      have ha : root ++ sub ++ ("/" ++ name) = root ++ (sub ++ ("/" ++ name)) := by
        rw [String.append_assoc]
      rw [ha]
      exact STT.SilenceAutoPage.strStartsWith_append root _
    simp only [STT.SilenceAutoPage.getJsonPath]
    rw [if_pos ⟨hroot, hpre⟩]
    have hb : root ++ sub ++ ("/" ++ name) = root ++ sub ++ "/" ++ name :=
      (String.append_assoc _ _ _).symm
    rw [hb, STT.SilenceAutoPage.lastComponent_append_sep (root ++ sub) name hname]
  · intro root fullPath h
    simp only [STT.SilenceAutoPage.getJsonPath]
    rw [if_neg]
    rintro ⟨_, hpre⟩
    rw [h] at hpre
    cases hpre
  · intro fullPath
    simp only [STT.SilenceAutoPage.getJsonPath]
    rw [if_neg]
    rintro ⟨hroot, _⟩
    exact hroot rfl
  · intro fullPath
    rfl
  · intro proj folder res files p c
    exact STT.SilenceAutoPage.mem_processFilesWrites files p c

/-- Witness for C8 (amended): the under-root clause at the concrete
project root `/p`, subfolder `/02_split` and filename `a.mp3`, and the
write clause showing the one-file batch writes the serialized record at
the derived cache path. -/
theorem C8_cache_key_amended_witness :
    (STT.SilenceAutoPage.getJsonPath (some "/p")
        ("/p" ++ "/02_split" ++ ("/" ++ "a.mp3"))
      = STT.toSlashes ("/p" ++ "/.silence_reg/" ++ "a.mp3" ++ ".json"))
    ∧ ((STT.SilenceAutoPage.getJsonPath (some "/p")
          (STT.toSlashes ("/p/02_split" ++ "/" ++ "a.mp3")),
        STT.SilenceAutoPage.encodeResponse ⟨"a.mp3", 10, [], ""⟩)
      ∈ STT.SilenceAutoPage.processFilesWrites (some "/p") "/p/02_split"
          (fun _ => some ⟨"a.mp3", 10, [], ""⟩) ["a.mp3"]) :=
  ⟨C8_cache_key_amended.1 "/p" "/02_split" "a.mp3" (by decide) (by decide),
    (C8_cache_key_amended.2.2.2.2.2 (some "/p") "/p/02_split"
        (fun _ => some ⟨"a.mp3", 10, [], ""⟩) ["a.mp3"] _ _).mpr
      ⟨"a.mp3", List.mem_singleton.mpr rfl, ⟨"a.mp3", 10, [], ""⟩, rfl, rfl, rfl⟩⟩

namespace STT.SilenceAutoPage

/-! ## Seek and transport shortcuts (SilenceAutoPage / SilencePage)

`handleSeek` (SilenceAutoPage lines 409-414, SilencePage lines 233-238)
passes the requested seconds to the backend unchanged and then sets the
displayed position to the same raw value — it performs no clamping
itself.  Clamping happens only at the keyboard call sites of
`handleKeyDown`: ArrowLeft uses `Math.max(0, t - 5)` and ArrowRight uses
`Math.min(duration, t + 5)`.
-/

/-- The displayed position and the loaded track's duration. -/
structure TransportState where
  currentTime : ℚ
  duration : ℚ
deriving DecidableEq

/-- `handleSeek(seconds)`: on a successful backend seek the displayed
position becomes exactly the requested seconds; a failed call is swallowed
and leaves the position unchanged. -/
def handleSeek (seekOk : Bool) (seconds : ℚ) (s : TransportState) :
    TransportState :=
  if seekOk then { s with currentTime := seconds } else s

/-- The ArrowLeft target `Math.max(0, currentTime - SKIP_SECONDS)`. -/
def arrowLeftTarget (currentTime : ℚ) : ℚ := max 0 (currentTime - 5)

/-- The ArrowRight target `Math.min(duration, currentTime + SKIP_SECONDS)`. -/
def arrowRightTarget (duration currentTime : ℚ) : ℚ :=
  min duration (currentTime + 5)

end STT.SilenceAutoPage

/-- Counterexample for C9: `handleSeek` does not clamp.  With duration 10,
a successful seek to 11 leaves the displayed position at 11, outside
[0, duration]. -/
theorem C9_seek_clamp_counterexample :
    ¬ ((STT.SilenceAutoPage.handleSeek true 11 ⟨0, 10⟩).currentTime
        ≤ (⟨0, 10⟩ : STT.SilenceAutoPage.TransportState).duration) := by
  decide

/-- Claim C9 (amended): `handleSeek` issues the backend seek with the raw
requested value and sets the displayed position to exactly that value,
without clamping; the clamping to [0, duration] is done by the keyboard
call sites, whose ArrowLeft and ArrowRight targets always lie within
[0, duration] when the current position does. -/
theorem C9_seek_clamping_amended :
    (∀ (v : ℚ) (s : STT.SilenceAutoPage.TransportState),
      (STT.SilenceAutoPage.handleSeek true v s).currentTime = v)
    ∧ (∀ s : STT.SilenceAutoPage.TransportState,
        0 ≤ s.currentTime → s.currentTime ≤ s.duration →
        0 ≤ STT.SilenceAutoPage.arrowLeftTarget s.currentTime
          ∧ STT.SilenceAutoPage.arrowLeftTarget s.currentTime ≤ s.duration)
    ∧ (∀ s : STT.SilenceAutoPage.TransportState,
        0 ≤ s.currentTime → s.currentTime ≤ s.duration →
        0 ≤ STT.SilenceAutoPage.arrowRightTarget s.duration s.currentTime
          ∧ STT.SilenceAutoPage.arrowRightTarget s.duration s.currentTime
            ≤ s.duration) := by
  refine ⟨?_, ?_, ?_⟩
  · intro v s
    simp [STT.SilenceAutoPage.handleSeek]
  · intro s h0 hd
    unfold STT.SilenceAutoPage.arrowLeftTarget
    constructor
    · exact le_max_left 0 _
    · exact max_le (le_trans h0 hd) (by linarith)
  · intro s h0 hd
    unfold STT.SilenceAutoPage.arrowRightTarget
    constructor
    · exact le_min (le_trans h0 hd) (by linarith)
    · exact min_le_left _ _

/-- Witness for C9 (amended): the clamped ArrowRight target at position 8
of a 10-second track stays within bounds. -/
theorem C9_seek_clamping_amended_witness :
    0 ≤ STT.SilenceAutoPage.arrowRightTarget
        (⟨8, 10⟩ : STT.SilenceAutoPage.TransportState).duration
        (⟨8, 10⟩ : STT.SilenceAutoPage.TransportState).currentTime
    ∧ STT.SilenceAutoPage.arrowRightTarget
        (⟨8, 10⟩ : STT.SilenceAutoPage.TransportState).duration
        (⟨8, 10⟩ : STT.SilenceAutoPage.TransportState).currentTime
      ≤ (⟨8, 10⟩ : STT.SilenceAutoPage.TransportState).duration :=
  C9_seek_clamping_amended.2.2 ⟨8, 10⟩ (by decide) (by decide)

namespace STT.SilenceAutoPage

/-! ## Playback polling versus seeks (SilenceAutoPage lines 142-220)

The polling effect (lines 142-175) re-runs whenever `isPlaying` or
`isSeeking` changes; its cleanup sets the closed-over `isCancelled` flag,
so a poll response is applied only when the effect instance that issued it
is still the current one.  `epoch` counts effect instances; a pending poll
carries the epoch of its issuing instance, and at most one poll is in
flight because the loop reschedules itself only after a response.  The
keyboard seek (lines 186-209) sets the position optimistically and awaits
the backend seek, changing neither `isPlaying` nor `isSeeking`; the slider
seek flips `isSeeking` on grab and on release (re-running the effect), and
its `handleSeek` resumption sets the position when the backend acks.
-/

/-- The mirrored transport state together with the effect-instance
counter, the in-flight poll (tagged with its issuing epoch) and whether a
seek round-trip is in flight. -/
structure PlayerSync where
  currentTime : ℚ
  isPlaying : Bool
  isSeeking : Bool
  epoch : ℕ
  pendingPoll : Option ℕ
  seekInflight : Bool
deriving DecidableEq

/-- `setIsPlaying` as an effect dependency: an actual change re-runs the
polling effect, cancelling the previous instance. -/
def setIsPlayingSync (s : PlayerSync) (b : Bool) : PlayerSync :=
  if s.isPlaying = b then s else { s with isPlaying := b, epoch := s.epoch + 1 }

/-- `setIsSeeking` as an effect dependency, likewise. -/
def setIsSeekingSync (s : PlayerSync) (b : Bool) : PlayerSync :=
  if s.isSeeking = b then s else { s with isSeeking := b, epoch := s.epoch + 1 }

/-- The interleaved events of the polling loop and the two seek paths. -/
inductive SyncEvent
  | pollIssue
  | pollDeliver (pos : ℚ) (enginePlaying : Bool)
  | keySeek (target : ℚ)
  | keySeekDone
  | sliderGrab (v : ℚ)
  | sliderRelease
  | sliderSeekDone (v : ℚ)
deriving DecidableEq

/-- One interleaving step.  `pollIssue` fires the poll body's
`get_playback_state` call when playing, not seeking and no poll pending;
`pollDeliver` applies the response only if the issuing effect instance is
still current (`isCancelled` is false), setting position then playing
flag; `keySeek` is the optimistic keyboard update with the backend seek
left in flight; the slider events flip `isSeeking` and complete
`handleSeek`. -/
def syncStep (s : PlayerSync) : SyncEvent → PlayerSync
  | .pollIssue =>
    if s.isPlaying && !s.isSeeking && s.pendingPoll == none then
      { s with pendingPoll := some s.epoch }
    else s
  | .pollDeliver pos pl =>
    match s.pendingPoll with
    | some e =>
      if e = s.epoch then
        setIsPlayingSync { s with currentTime := pos, pendingPoll := none } pl
      else { s with pendingPoll := none }
    | none => s
  | .keySeek t => { s with currentTime := t, seekInflight := true }
  | .keySeekDone => { s with seekInflight := false }
  | .sliderGrab v => setIsSeekingSync { s with currentTime := v } true
  | .sliderRelease => { setIsSeekingSync s false with seekInflight := true }
  | .sliderSeekDone v => { s with currentTime := v, seekInflight := false }

/-- Run a list of events oldest first. -/
def syncRun (s : PlayerSync) (evs : List SyncEvent) : PlayerSync :=
  evs.foldl syncStep s

end STT.SilenceAutoPage

/-- Counterexample for C10: from a playing state at position 2, a poll is
issued, the keyboard seek to 5 starts, and the stale poll response
carrying position 2 is delivered before the seek round-trip completes.
The response passes the cancellation check (the keyboard seek re-ran no
effect), so the displayed position regresses to 2 < 5 while the seek is
still in flight. -/
theorem C10_stale_poll_counterexample :
    (STT.SilenceAutoPage.syncRun ⟨2, true, false, 0, none, false⟩
        [.pollIssue, .keySeek 5, .pollDeliver 2 true]).seekInflight = true
    ∧ (STT.SilenceAutoPage.syncRun ⟨2, true, false, 0, none, false⟩
        [.pollIssue, .keySeek 5, .pollDeliver 2 true]).currentTime < 5 := by
  decide

/-- Claim C10 (amended): a poll response from a superseded effect instance
is never applied to the displayed position; the epoch never decreases, and
a slider grab while not already seeking supersedes the issuing instance,
so polls issued before a slider seek can never regress the position — but
a keyboard seek changes neither the effect instance nor the pending poll,
which is why the stale response in the counterexample is still applied. -/
theorem C10_stale_poll_amended :
    (∀ (s : STT.SilenceAutoPage.PlayerSync) (pos : ℚ) (pl : Bool) (e : ℕ),
      s.pendingPoll = some e → e ≠ s.epoch →
      (STT.SilenceAutoPage.syncStep s (.pollDeliver pos pl)).currentTime
        = s.currentTime)
    ∧ (∀ (s : STT.SilenceAutoPage.PlayerSync) (ev : STT.SilenceAutoPage.SyncEvent),
        s.epoch ≤ (STT.SilenceAutoPage.syncStep s ev).epoch)
    ∧ (∀ (s : STT.SilenceAutoPage.PlayerSync) (v : ℚ),
        s.isSeeking = false →
        s.epoch < (STT.SilenceAutoPage.syncStep s (.sliderGrab v)).epoch)
    ∧ (∀ (s : STT.SilenceAutoPage.PlayerSync) (t : ℚ),
        (STT.SilenceAutoPage.syncStep s (.keySeek t)).epoch = s.epoch
          ∧ (STT.SilenceAutoPage.syncStep s (.keySeek t)).pendingPoll
            = s.pendingPoll) := by
  refine ⟨?_, ?_, ?_, ?_⟩
  · intro s pos pl e hp he
    simp only [STT.SilenceAutoPage.syncStep, hp, he, if_false]
  · intro s ev
    cases ev with
    | pollIssue =>
      simp only [STT.SilenceAutoPage.syncStep]
      split <;> simp
    | pollDeliver pos pl =>
      simp only [STT.SilenceAutoPage.syncStep]
      cases hp : s.pendingPoll with
      | none => simp
      | some e =>
        by_cases he : e = s.epoch
        · simp only [he, if_true]
          unfold STT.SilenceAutoPage.setIsPlayingSync
          split <;> simp
        · simp [he]
    | keySeek t => exact le_refl _
    | keySeekDone => exact le_refl _
    | sliderGrab v =>
      simp only [STT.SilenceAutoPage.syncStep]
      unfold STT.SilenceAutoPage.setIsSeekingSync
      split <;> simp
    | sliderRelease =>
      simp only [STT.SilenceAutoPage.syncStep]
      unfold STT.SilenceAutoPage.setIsSeekingSync
      split <;> simp
    | sliderSeekDone v => exact le_refl _
  · intro s v hs
    simp only [STT.SilenceAutoPage.syncStep]
    unfold STT.SilenceAutoPage.setIsSeekingSync
    rw [if_neg]
    · simp
    · simp [hs]
  · intro s t
    exact ⟨rfl, rfl⟩

/-- Witness for C10 (amended): a stale-epoch poll delivery at a concrete
state leaves the displayed position unchanged. -/
theorem C10_stale_poll_amended_witness :
    (STT.SilenceAutoPage.syncStep ⟨5, true, false, 1, some 0, true⟩
        (.pollDeliver 2 true)).currentTime
      = (⟨5, true, false, 1, some 0, true⟩ :
          STT.SilenceAutoPage.PlayerSync).currentTime :=
  C10_stale_poll_amended.1 ⟨5, true, false, 1, some 0, true⟩ 2 true 0 rfl
    (by decide)
